import Mathlib

namespace SensorDsp

/-!
Shallow embedding of the Infineon sensor-dsp radar signal-processing
library, together with theorems settling the specification claims.

Modelling conventions: float32 values are embedded as rationals (or reals
where trigonometric identities are needed); machine loops become fuel- or
structurally-recursive functions; C assert statements become Option-valued
rejection; the external CMSIS math backend (FFT execution, atan2, sqrt,
cos) is modelled by abstract function parameters constrained only by the
backend contract of the specification.
-/

/-- Peak search options, ifx_peak_search_opts_f32_t.  The height field is
an Option: `none` encodes the C float value -INFINITY used by the default
options, for which the C comparison `x[i] <= height` is false for every
finite sample; `some h` is a finite height. -/
structure PeakSearchOpts where
  height : Option ℚ
  threshold : ℚ
  distance : ℤ
  width : ℤ
deriving DecidableEq

/-- Default options installed by ifx_peak_search_f32 when opts == NULL
(ifx_peak_search_f32.c lines 82-88): height = -INFINITY,
threshold = FLT_EPSILON = 2^-23, distance = 1, width = 1. -/
def defaultPeakOpts : PeakSearchOpts :=
  { height := none, threshold := 1 / 8388608, distance := 1, width := 1 }

/-- Inner scan of get_prominence (ifx_peak_search_f32.c lines 167-177 and
179-189): walk the list, breaking at the first sample strictly above
peakVal, otherwise folding the running minimum m. -/
def scanMin (peakVal : ℚ) : List ℚ → ℚ → ℚ
  | [], m => m
  | a :: rest, m => if peakVal < a then m else scanMin peakVal rest (min m a)

/-- get_prominence (ifx_peak_search_f32.c lines 160-192): find the lhs and
rhs bases of the peak and return the drop to the higher (closer) base. -/
def get_prominence (x : List ℚ) (peakIndex : ℕ) : ℚ :=
  let peakVal := x.getD peakIndex 0
  let minLhs := scanMin peakVal ((x.take peakIndex).reverse) peakVal
  let minRhs := scanMin peakVal (x.drop (peakIndex + 1)) peakVal
  if minLhs < minRhs then peakVal - minRhs else peakVal - minLhs

/-- get_width (ifx_peak_search_f32.c lines 196-221): width starts at 0, is
set to the index of the first rhs sample below widthMagnitude, and the
index of the first lhs sample below widthMagnitude (scanning down from
peakIndex-1) is subtracted. -/
def get_width (x : List ℚ) (peakIndex : ℕ) (peakProminence : ℚ) : ℤ :=
  let widthMagnitude := x.getD peakIndex 0 - peakProminence
  let rhs : ℤ :=
    match (x.drop (peakIndex + 1)).findIdx? (fun a => decide (a < widthMagnitude)) with
    | some j => (peakIndex : ℤ) + 1 + (j : ℤ)
    | none => 0
  let lhsSub : ℤ :=
    match ((x.take peakIndex).reverse).findIdx? (fun a => decide (a < widthMagnitude)) with
    | some j => (peakIndex : ℤ) - 1 - (j : ℤ)
    | none => 0
  rhs - lhsSub

/-- The candidate loop of ifx_peak_search_f32 (lines 97-153).  `acc` holds
the accepted peak indices most-recent-first, so the C assignment
peak_indices[peak_count] = i is a cons (append, peak_count_increment = 1)
or a head replacement (peak_count_increment = 0); `last` mirrors
last_peak_index; `i` is the candidate index; C's peak_count > 0 test is
2 <= acc.length because peak_count = acc.length - 1.  The fuel argument
only bounds the i < length-1 loop and is immaterial once it is at least
x.length. -/
def psLoop (x : List ℚ) (height : Option ℚ) (threshold : ℚ)
    (distance width maxPeaks : ℤ) :
    ℕ → ℕ → List ℕ → ℕ → List ℕ
  | 0, _, acc, _ => acc.reverse
  | fuel + 1, i, acc, last =>
    if i + 1 < x.length then
      let xi := x.getD i 0
      let heightFail : Bool := match height with
        | none => false
        | some h => decide (xi ≤ h)
      let continue_ := psLoop x height threshold distance width maxPeaks fuel (i+1) acc last
      if heightFail then continue_
      else
        let sampleThresh := xi - threshold
        if sampleThresh < x.getD (i-1) 0 then continue_
        else if sampleThresh < x.getD (i+1) 0 then continue_
        else
          let incr : Option Bool :=
            if 2 ≤ acc.length ∧ (last : ℤ) > (i : ℤ) - distance then
              if x.getD last 0 < xi then some false else none
            else some true
          match incr with
          | none => continue_
          | some append =>
            if 1 < width ∧ get_width x i (get_prominence x i * (1/2)) < width then
              continue_
            else
              let acc' := if append then i :: acc else i :: acc.tail
              if maxPeaks ≤ (acc'.length : ℤ) then acc'.reverse
              else psLoop x height threshold distance width maxPeaks fuel (i+1) acc' i
    else acc.reverse

/-- ifx_peak_search_f32 (lines 71-155): returns the accepted peak indices
in storage order together with the returned count peak_count + 1. -/
def ifx_peak_search_f32 (x : List ℚ) (opts : Option PeakSearchOpts)
    (maxPeaks : ℤ) : List ℕ × ℤ :=
  let o := opts.getD defaultPeakOpts
  let res := psLoop x o.height o.threshold o.distance o.width maxPeaks x.length 1 [] 0
  (res, (res.length : ℤ))

/-!
MTI filter, ifx_mti_f32.c.
-/

/-- MTI instance structure ifx_mti_inst_f32 (ifx_sensor_dsp.h lines
120-141); the historical_data pointer together with its pointee values is
modelled as the list historical. -/
structure MtiInst where
  len : ℕ
  alpha : ℚ
  historical : List ℚ
deriving DecidableEq

/-- ifx_mti_init_f32 (ifx_mti_f32.c lines 27-45).  The C asserts
inst->alpha >= 0 and inst->alpha <= 1 BEFORE the assignment
inst->alpha = alpha, i.e. on the stale field of the not-yet-initialized
instance, never on the alpha argument; a tripped assertion is modelled as
none.  (The pointer assertions assert(inst), assert(historical_data) and
assert(inst->historical_data) have no counterpart in the model, where
buffers are values.)  On success the history is zeroed and the len and
alpha arguments are stored. -/
def ifx_mti_init_f32 (inst : MtiInst) (alpha : ℚ) (len : ℕ) : Option MtiInst :=
  if 0 ≤ inst.alpha ∧ inst.alpha ≤ 1 then
    some { len := len, alpha := alpha, historical := List.replicate len 0 }
  else none

/-- ifx_mti_f32 (ifx_mti_f32.c lines 48-69): out = in - historical
pointwise (arm_sub_f32), then historical[j] += alpha * out[j].  Returns
the output vector and the updated instance. -/
def ifx_mti_f32 (inst : MtiInst) (inData : List ℚ) : List ℚ × MtiInst :=
  let out := List.zipWith (fun x h => x - h) inData inst.historical
  let hist := List.zipWith (fun h y => h + inst.alpha * y) inst.historical out
  (out, { inst with historical := hist })

/-- Repeated application of ifx_mti_f32: instance state after k calls,
starting from an ifx_mti_init_f32-style zeroed history of n bins and
feeding the constant frame replicate n c on every call. -/
def mtiIter (α : ℚ) (n : ℕ) (c : ℚ) : ℕ → MtiInst
  | 0 => { len := n, alpha := α, historical := List.replicate n 0 }
  | k + 1 => (ifx_mti_f32 (mtiIter α n c k) (List.replicate n c)).2

/-- Output vector produced by the k-th call (k >= 1) in the constant-input
iteration of ifx_mti_f32. -/
def mtiIterOut (α : ℚ) (n : ℕ) (c : ℚ) (k : ℕ) : List ℚ :=
  (ifx_mti_f32 (mtiIter α n c (k - 1)) (List.replicate n c)).1

/-!
Single-slot FFT plan cache and the range FFT entry point.
-/

/-- Shared single-slot plan cache logic of the three transform entry
points (ifx_range_fft_f32.c lines 38-45, ifx_range_cfft_f32.c lines 36-43,
ifx_doppler_cfft_f32.c lines 38-45): each entry point owns one static plan
instance whose length field starts zero-initialized; a call compares the
requested transform length against the cached one and re-runs the backend
plan init only on a mismatch.  initOk models whether the backend init
(arm_rfft_fast_init_f32 / arm_cfft_init_f32) succeeds for a length; on
init failure the cached length is unchanged and the entry point returns
IFX_SENSOR_DSP_ARGUMENT_ERROR.  Result fields: new cached length, whether
the plan was rebuilt, success. -/
def fftCacheStep (initOk : ℕ → Bool) (cache n : ℕ) : ℕ × Bool × Bool :=
  if cache = n then (cache, false, true)
  else if initOk n then (n, true, true)
  else (cache, true, false)

/-- A sequence of calls against one entry point's plan cache, returning
the (rebuilt, success) flags of each call in order. -/
def runCache (initOk : ℕ → Bool) : ℕ → List ℕ → List (Bool × Bool)
  | _, [] => []
  | cache, n :: rest =>
    let s := fftCacheStep initOk cache n
    (s.2.1, s.2.2) :: runCache initOk s.1 rest

/-- Call-length sequence alternating between a and b, starting with a. -/
def altList (a b : ℕ) : ℕ → List ℕ
  | 0 => []
  | k + 1 => a :: altList b a k

/-- ifx_mean_removal_f32 (ifx_mean_removal_f32.c lines 28-35): arm_mean_f32
followed by arm_offset_f32 with the negated mean. -/
def ifx_mean_removal_f32 (v : List ℚ) : List ℚ :=
  let mean := v.sum / (v.length : ℚ)
  v.map (fun a => a - mean)

/-- The CIMAG_F32(range[0]) = 0.0f store of ifx_range_fft_f32.c line 60:
force the imaginary part of the DC bin of one output row to zero,
regardless of the value the backend wrote there. -/
def setDcImagZero : List (ℚ × ℚ) → List (ℚ × ℚ)
  | [] => []
  | (re, _) :: rest => (re, 0) :: rest

/-- ifx_range_fft_f32 (ifx_range_fft_f32.c lines 28-67).  rfftRun models
arm_rfft_fast_f32 (a backend real FFT writing, for an n-sample chirp,
n/2 packed complex bins); initOk and cache model the static single-slot
plan as in fftCacheStep.  The flat frame buffer advanced by
num_samples_per_chirp per chirp is modelled as the list of chirps; the
flat output buffer advanced by num_samples_per_chirp/2 per chirp is the
flattening of the returned rows.  Per chirp: optional mean removal,
optional windowing (arm_mult_f32, elementwise), backend FFT, then the DC
imaginary part is forced to zero.  Returns the new cached length and
(on success) the output rows; none models the
IFX_SENSOR_DSP_ARGUMENT_ERROR return of line 43.  Body of the chirp loop
(lines 47-64), factored out as rangeChirpStep below: optional mean
removal, optional windowing (arm_mult_f32, elementwise), backend real
FFT, then the DC imaginary part of the row is forced to zero. -/
def rangeChirpStep (rfftRun : List ℚ → List (ℚ × ℚ)) (meanRemoval : Bool)
    (win : Option (List ℚ)) (chirp : List ℚ) : List (ℚ × ℚ) :=
  let c1 := if meanRemoval then ifx_mean_removal_f32 chirp else chirp
  let c2 := match win with
    | some w => List.zipWith (fun a b => a * b) c1 w
    | none => c1
  setDcImagZero (rfftRun c2)

def ifx_range_fft_f32 (rfftRun : List ℚ → List (ℚ × ℚ)) (initOk : ℕ → Bool)
    (cache : ℕ) (frame : List (List ℚ)) (meanRemoval : Bool)
    (win : Option (List ℚ)) (numSamplesPerChirp : ℕ) :
    ℕ × Option (List (List (ℚ × ℚ))) :=
  let s := fftCacheStep initOk cache numSamplesPerChirp
  if s.2.2 then
    (s.1, some (frame.map (rangeChirpStep rfftRun meanRemoval win)))
  else (s.1, none)

/-!
Digital beamforming, ifx_angle_dbf_f32.c.
-/

/-- The arm_matrix_instance_f32 shape data: row count, column count and
(complex) element storage. -/
structure CMatrix where
  numRows : ℕ
  numCols : ℕ
  pData : List (ℚ × ℚ)
deriving DecidableEq

/-- ifx_angle_dbf_f32 (ifx_angle_dbf_f32.c lines 28-42): asserts
pSteering->numCols == pInput->numRows (antennas), pInput->numCols ==
pOutput->numCols (samples) and pSteering->numRows == pOutput->numRows
(angles), then delegates to the backend arm_mat_cmplx_mult_f32 on
(pSteering, pInput) — modelled by the abstract parameter mult.  A tripped
assertion (none) rejects the call before the multiply runs. -/
def ifx_angle_dbf_f32 (mult : CMatrix → CMatrix → CMatrix)
    (pInput pSteering pOutput : CMatrix) : Option CMatrix :=
  if pSteering.numCols = pInput.numRows ∧ pInput.numCols = pOutput.numCols ∧
      pSteering.numRows = pOutput.numRows then
    some (mult pSteering pInput)
  else none

/-!
Monopulse angle estimation, ifx_angle_monopulse_f32.c and
ifx_arcsin_f32.c.  The scalar backend calls arm_atan2_f32 and
arm_sqrt_f32 are code of the external math library, not of this
repository; they are modelled as abstract parameters returning a success
flag and the value written on success (on failure the C backend leaves
the output variable untouched, which the model reproduces by keeping the
stale value). -/

/-- The PI macro of the CMSIS backend used by
ifx_angle_monopulse_f32.c. -/
def cmsisPI : ℚ := 3.14159265358979

/-- The PI_2_F32 macro of ifx_sensor_dsp.h line 101. -/
def PI_2_F32 : ℚ := 1.570796370506

/-- ifx_arcsin_f32 (ifx_arcsin_f32.c lines 28-53): inputs at or beyond
+-1 clamp to +-PI_2_F32 with success; otherwise y = sqrt(1 - x*x) is
taken from the backend — on sqrt failure the result is set to 0 and the
failing status returned (first component false), on sqrt success the
status is success and the result is whatever atan2(x, y) writes (none
when the backend atan2 fails and writes nothing, line 45 discards the
atan2 status). -/
def ifx_arcsin_f32 (sqrt : ℚ → Bool × ℚ) (atan2 : ℚ → ℚ → Bool × ℚ)
    (x : ℚ) : Bool × Option ℚ :=
  if 1 ≤ x then (true, some PI_2_F32)
  else if x ≤ -1 then (true, some (-PI_2_F32))
  else
    let s := sqrt (1 - x * x)
    if s.1 then
      let a := atan2 x s.2
      (true, if a.1 then some a.2 else none)
    else (false, some 0)

/-- The sample loop of ifx_angle_monopulse_f32 (lines 60-80).  State:
remaining (rx1[i], rx2[i]) pairs, the rx1_ang / rx2_ang variables (stale
values kept when the backend atan2 fails to write), the accumulated
status |= conjunction, and the angle entries emitted so far (most recent
first; none marks an entry the arcsin path never wrote). -/
def monopulseLoop (atan2 : ℚ → ℚ → Bool × ℚ) (sqrt : ℚ → Bool × ℚ)
    (ratio : ℚ) :
    List ((ℚ × ℚ) × (ℚ × ℚ)) → ℚ → ℚ → Bool → List (Option ℚ) →
      List (Option ℚ) × Bool
  | [], _, _, ok, acc => (acc.reverse, ok)
  | (z1, z2) :: rest, a1, a2, ok, acc =>
    let r1 := atan2 z1.2 z1.1
    let a1' := if r1.1 then r1.2 else a1
    let r2 := atan2 z2.2 z2.1
    let a2' := if r2.1 then r2.2 else a2
    let d0 := a1' - a2'
    let d := if d0 ≤ -cmsisPI then d0 + 2 * cmsisPI
      else if cmsisPI < d0 then d0 - 2 * cmsisPI else d0
    let ar := ifx_arcsin_f32 sqrt atan2 (d * ratio)
    monopulseLoop atan2 sqrt ratio rest a1' a2'
      (((ok && r1.1) && r2.1) && ar.1) (ar.2 :: acc)

/-- ifx_angle_monopulse_f32 (lines 38-83): ratio = wavelength /
antenna_spacing / (2 PI); rx1_ang and rx2_ang start at 0; the returned
flag is true exactly when the C status word stayed 0
(ARM_MATH_SUCCESS). The asserts on size and on the positivity of
wavelength and antenna_spacing are preconditions carried as hypotheses by
the theorems below. -/
def ifx_angle_monopulse_f32 (atan2 : ℚ → ℚ → Bool × ℚ)
    (sqrt : ℚ → Bool × ℚ) (rx1 rx2 : List (ℚ × ℚ))
    (wavelength antennaSpacing : ℚ) : List (Option ℚ) × Bool :=
  let ratio := wavelength / antennaSpacing / (2 * cmsisPI)
  monopulseLoop atan2 sqrt ratio (rx1.zip rx2) 0 0 true []

/-!
Array rotation and spectrum shift, ifx_rotate_f32.c and
ifx_shift_cfft_f32.c.
-/

/-- One pass of the while-loop body of ifx_rotate_f32 (lines 32-41):
save v[0], shift every element one slot left, store the saved value at
v[len-1] — a single circular left rotation. -/
def rotate1 : List ℚ → List ℚ
  | [] => []
  | x :: xs => xs ++ [x]

/-- ifx_rotate_f32 (ifx_rotate_f32.c lines 28-42): k repetitions of the
single left rotation over the len-element buffer (the len parameter is
the length of the modelled list). -/
def ifx_rotate_f32 (v : List ℚ) (k : ℕ) : List ℚ := rotate1^[k] v

/-- Packed float view of a complex buffer: each element contributes its
real then its imaginary part (the cfloat32_t memory layout the
(float32_t*) cast of ifx_shift_cfft_f32.c line 34 exposes). -/
def toFlat : List (ℚ × ℚ) → List ℚ
  | [] => []
  | (re, im) :: rest => re :: im :: toFlat rest

/-- Inverse of toFlat: re-pair a packed float buffer into complex
elements. -/
def unflat : List ℚ → List (ℚ × ℚ)
  | re :: im :: rest => (re, im) :: unflat rest
  | _ => []

/-- ifx_shift_cfft_f32 (ifx_shift_cfft_f32.c lines 28-37): for each of
dim rows of len complex elements, rotate the row's 2*len-float view left
by len+1 floats when len is odd and by len floats when len is even, then
advance to the next row.  Argument order is (len, buffer, dim) so the
recursion is structural in dim. -/
def ifx_shift_cfft_f32 (len : ℕ) : List (ℚ × ℚ) → ℕ → List (ℚ × ℚ)
  | v, 0 => v
  | v, dim + 1 =>
    unflat (ifx_rotate_f32 (toFlat (v.take len))
        (if len % 2 = 1 then len + 1 else len))
      ++ ifx_shift_cfft_f32 len (v.drop len) dim

/-!
Window generators.  The backend cosine arm_cos_f32 is the mathematical
cosine under the spec's scalar-backend contract, so the generators are
real-valued functions of the index; win[n] is the value the C loop stores
at index n for a window of the given length. -/

/-- ifx_window_hamming_f32 (ifx_window_hamming_f32.c lines 28-39):
win[n] = 0.54 - 0.46 cos(2 pi n M) with M = 1/(len-1). -/
noncomputable def ifx_window_hamming_f32 (len n : ℕ) : ℝ :=
  0.54 - 0.46 * Real.cos (2 * Real.pi * (n : ℝ) * (1 / ((len : ℝ) - 1)))

/-- ifx_window_blackmanharris_f32 (ifx_window_blackmanharris_f32.c lines
37-51): the 4-term window with coefficients 0.35875, 0.48829, 0.14128,
0.01168. -/
noncomputable def ifx_window_blackmanharris_f32 (len n : ℕ) : ℝ :=
  0.35875 - 0.48829 * Real.cos (2 * Real.pi * (n : ℝ) * (1 / ((len : ℝ) - 1)))
    + 0.14128 * Real.cos (4 * Real.pi * (n : ℝ) * (1 / ((len : ℝ) - 1)))
    - 0.01168 * Real.cos (6 * Real.pi * (n : ℝ) * (1 / ((len : ℝ) - 1)))

/-- Modelled from the spec: ifx_window_hann_f32 is declared in
ifx_sensor_dsp.h line 347 but its implementation file is not under src;
formula from spec 4.1 and the header doc comment:
win[n] = 0.5 (1 - cos(2 pi n/(N-1))). -/
noncomputable def ifx_window_hann_f32 (len n : ℕ) : ℝ :=
  0.5 * (1 - Real.cos (2 * Real.pi * (n : ℝ) * (1 / ((len : ℝ) - 1))))

/-- Modelled from the spec: ifx_window_blackman_f32 is declared in
ifx_sensor_dsp.h line 275 but its implementation file is not under src;
formula from spec 4.1: win[n] = 0.42 - 0.5 cos(2 pi n/(N-1))
+ 0.08 cos(4 pi n/(N-1)). -/
noncomputable def ifx_window_blackman_f32 (len n : ℕ) : ℝ :=
  0.42 - 0.5 * Real.cos (2 * Real.pi * (n : ℝ) * (1 / ((len : ℝ) - 1)))
    + 0.08 * Real.cos (4 * Real.pi * (n : ℝ) * (1 / ((len : ℝ) - 1)))

/-- The raised-cosine window family offered by the library. -/
inductive WindowKind
  | hamming
  | blackmanharris
  | hann
  | blackman
deriving DecidableEq

/-- Dispatch over the window family. -/
noncomputable def windowGen : WindowKind → ℕ → ℕ → ℝ
  | WindowKind.hamming => ifx_window_hamming_f32
  | WindowKind.blackmanharris => ifx_window_blackmanharris_f32
  | WindowKind.hann => ifx_window_hann_f32
  | WindowKind.blackman => ifx_window_blackman_f32

/-!
Theorems: helper lemmas, the claim theorems and their witnesses.
-/

lemma peak_search_default_options_eval :
    ifx_peak_search_f32 [0, 1, 0, 5, 0, 1, 0] none 5 = ([1, 3, 5], 3) := by
  norm_num [ifx_peak_search_f32, psLoop, defaultPeakOpts, List.getD]

/-- Claim C1: the distance/replace rule is evaluated on the spec's own test
vector x = [0,1,0,5,0,1,0] with default height (-INFINITY), default
threshold (FLT_EPSILON), distance = 4, width = 1, max_peaks = 5.  The claim
says the result is the single index 3, but the code returns the two indices
[1, 3] (count 2): the distance check at line 120 is guarded by
peak_count > 0, which is false while exactly one peak has been accepted
(peak_count == 0), so the candidate at index 3 is never compared against
the accepted peak at index 1. -/
theorem peak_search_distance_rule_eval :
    ifx_peak_search_f32 [0, 1, 0, 5, 0, 1, 0]
      (some { height := none, threshold := 1 / 8388608, distance := 4, width := 1 }) 5
      = ([1, 3], 2) := by
  norm_num [ifx_peak_search_f32, psLoop, List.getD]

/-- Claim C2: with max_peaks = 0 and default options, on x = [0,1,0] the
code accepts the candidate at index 1, stores it at peak_indices[0] (one
slot past the claimed capacity max_peaks - 1 = -1) and only then performs
the early-stop test at line 149, so it returns count 1 > max_peaks = 0.
The returned index list below has length 1, i.e. one write occurred even
though max_peaks = 0 promises none. -/
theorem peak_search_max_peaks_zero_eval :
    ifx_peak_search_f32 [0, 1, 0] none 0 = ([1], 1) := by
  norm_num [ifx_peak_search_f32, psLoop, defaultPeakOpts, List.getD]

/-- Claim C3: evaluation of ifx_mti_init_f32 exhibiting that the
0 <= alpha <= 1 assertion is applied to the stale instance field and not
to the alpha argument.  First conjunct: an instance whose stale alpha is
1/2 is initialized with the out-of-range argument alpha = 2 and the call
succeeds, leaving alpha = 2 stored (the postconditions on len and the
zeroed history do hold).  Second conjunct: an instance whose stale alpha
is 2 is initialized with the in-range argument alpha = 1/2 and the
assertion trips even though the argument satisfies the claimed
precondition. -/
theorem mti_init_asserts_stale_alpha_eval :
    ifx_mti_init_f32 { len := 0, alpha := 1/2, historical := [] } 2 3
      = some { len := 3, alpha := 2, historical := [0, 0, 0] } ∧
    ifx_mti_init_f32 { len := 0, alpha := 2, historical := [] } (1/2) 3
      = none := by
  constructor <;> norm_num [ifx_mti_init_f32, List.replicate]

lemma zipWith_replicate_eq (f : ℚ → ℚ → ℚ) (a b : ℚ) (n : ℕ) :
    List.zipWith f (List.replicate n a) (List.replicate n b)
      = List.replicate n (f a b) := by
  induction n with
  | zero => rfl
  | succ n ih => simp [List.replicate_succ, ih]

lemma mtiIter_alpha (α : ℚ) (n : ℕ) (c : ℚ) (k : ℕ) :
    (mtiIter α n c k).alpha = α := by
  induction k with
  | zero => rfl
  | succ k ih => simpa [mtiIter, ifx_mti_f32] using ih

lemma mtiIter_historical (α : ℚ) (n : ℕ) (c : ℚ) (k : ℕ) :
    (mtiIter α n c k).historical = List.replicate n (c * (1 - (1 - α) ^ k)) := by
  induction k with
  | zero => simp [mtiIter]
  | succ k ih =>
    have h : (mtiIter α n c (k + 1)).historical
        = List.zipWith (fun h y => h + α * y) (mtiIter α n c k).historical
            (List.zipWith (fun x h => x - h) (List.replicate n c)
              (mtiIter α n c k).historical) := by
      simp [mtiIter, ifx_mti_f32, mtiIter_alpha]
    rw [h, ih, zipWith_replicate_eq, zipWith_replicate_eq]
    congr 1
    ring

lemma mtiIterOut_eq (α : ℚ) (n : ℕ) (c : ℚ) (k : ℕ) :
    mtiIterOut α n c (k + 1) = List.replicate n (c * (1 - α) ^ k) := by
  unfold mtiIterOut
  simp only [Nat.add_sub_cancel]
  have h : (ifx_mti_f32 (mtiIter α n c k) (List.replicate n c)).1
      = List.zipWith (fun x h => x - h) (List.replicate n c)
          (mtiIter α n c k).historical := rfl
  rw [h, mtiIter_historical, zipWith_replicate_eq]
  congr 1
  ring

lemma getD_zipWith (f : ℚ → ℚ → ℚ) (l₁ l₂ : List ℚ) (i : ℕ)
    (h₁ : i < l₁.length) (h₂ : i < l₂.length) :
    (List.zipWith f l₁ l₂).getD i 0 = f (l₁.getD i 0) (l₂.getD i 0) := by
  induction l₁ generalizing l₂ i with
  | nil => simp at h₁
  | cons a l ih =>
    cases l₂ with
    | nil => simp at h₂
    | cons b l' =>
      cases i with
      | zero => rfl
      | succ i =>
        simp only [List.zipWith_cons_cons, List.getD_cons_succ]
        exact ih l' i (Nat.lt_of_succ_lt_succ h₁) (Nat.lt_of_succ_lt_succ h₂)

/-- Claim C5: a single call of ifx_mti_f32 computes, in every bin i,
output[i] = input[i] - historical[i] and the updated history
historical[i] + alpha * output[i]; iterating from zeroed history on the
constant frame c yields the output c * (1 - alpha)^(k-1) at the k-th
call; and for 0 < alpha <= 1 that per-bin output tends to zero as the
frame count grows. -/
theorem mti_apply_formula_and_convergence (inst : MtiInst) (inData : List ℚ)
    (hlen : inData.length = inst.len) (hhist : inst.historical.length = inst.len)
    (h0 : 0 ≤ inst.alpha) (h1 : inst.alpha ≤ 1) :
    (∀ i, i < inst.len →
      (ifx_mti_f32 inst inData).1.getD i 0
          = inData.getD i 0 - inst.historical.getD i 0 ∧
      (ifx_mti_f32 inst inData).2.historical.getD i 0
          = inst.historical.getD i 0
              + inst.alpha * (inData.getD i 0 - inst.historical.getD i 0)) ∧
    (∀ (α c : ℚ) (n k : ℕ), 1 ≤ k →
      mtiIterOut α n c k = List.replicate n (c * (1 - α) ^ (k - 1))) ∧
    (∀ (α c : ℚ) (n : ℕ), 0 < α → α ≤ 1 →
      Filter.Tendsto (fun k : ℕ => (((mtiIterOut α n c (k + 1)).getD 0 0 : ℚ) : ℝ))
        Filter.atTop (nhds 0)) := by
  refine ⟨?_, ?_, ?_⟩
  · intro i hi
    have hiIn : i < inData.length := by omega
    have hiH : i < inst.historical.length := by omega
    have hout : (ifx_mti_f32 inst inData).1.getD i 0
        = inData.getD i 0 - inst.historical.getD i 0 :=
      getD_zipWith _ _ _ i hiIn hiH
    refine ⟨hout, ?_⟩
    have hlenOut : i < (ifx_mti_f32 inst inData).1.length := by
      simp only [ifx_mti_f32, List.length_zipWith]
      omega
    have := getD_zipWith (fun h y => h + inst.alpha * y) inst.historical
      (ifx_mti_f32 inst inData).1 i hiH hlenOut
    calc (ifx_mti_f32 inst inData).2.historical.getD i 0
        = inst.historical.getD i 0
            + inst.alpha * ((ifx_mti_f32 inst inData).1.getD i 0) := this
      _ = inst.historical.getD i 0
            + inst.alpha * (inData.getD i 0 - inst.historical.getD i 0) := by
          rw [hout]
  · intro α c n k hk
    obtain ⟨j, rfl⟩ : ∃ j, k = j + 1 := ⟨k - 1, by omega⟩
    simpa using mtiIterOut_eq α n c j
  · intro α c n hα hα1
    have hcast : ∀ k : ℕ, (((mtiIterOut α n c (k + 1)).getD 0 0 : ℚ) : ℝ)
        = (if 0 < n then ((c : ℝ) * ((1 : ℝ) - (α : ℝ)) ^ k) else 0) := by
      intro k
      rw [mtiIterOut_eq]
      by_cases hn : 0 < n
      · obtain ⟨m, rfl⟩ : ∃ m, n = m + 1 := ⟨n - 1, by omega⟩
        simp only [List.replicate_succ, List.getD_cons_zero, if_pos hn]
        push_cast
        ring
      · have hn0 : n = 0 := by omega
        subst hn0
        simp
    by_cases hn : 0 < n
    · have hr0 : (0 : ℝ) ≤ ((1 : ℝ) - (α : ℝ)) := by
        have : (α : ℝ) ≤ 1 := by exact_mod_cast hα1
        linarith
      have hr1 : ((1 : ℝ) - (α : ℝ)) < 1 := by
        have : (0 : ℝ) < (α : ℝ) := by exact_mod_cast hα
        linarith
      have hpow : Filter.Tendsto (fun k : ℕ => ((1 : ℝ) - (α : ℝ)) ^ k)
          Filter.atTop (nhds 0) :=
        tendsto_pow_atTop_nhds_zero_of_lt_one hr0 hr1
      have hmul := hpow.const_mul (c : ℝ)
      rw [mul_zero] at hmul
      refine Filter.Tendsto.congr (fun k => ?_) hmul
      rw [hcast k, if_pos hn]
    · refine Filter.Tendsto.congr (fun k => ?_) tendsto_const_nhds
      rw [hcast k, if_neg hn]

/-- Witness for claim C5's theorem at the concrete instance
len = 1, alpha = 1/2, history = [0] with input frame [1]. -/
theorem mti_apply_formula_and_convergence_witness :
    (∀ i, i < ({ len := 1, alpha := 1/2, historical := [0] } : MtiInst).len →
      (ifx_mti_f32 { len := 1, alpha := 1/2, historical := [0] } [1]).1.getD i 0
          = ([1] : List ℚ).getD i 0
              - ({ len := 1, alpha := 1/2, historical := [0] } : MtiInst).historical.getD i 0 ∧
      (ifx_mti_f32 { len := 1, alpha := 1/2, historical := [0] } [1]).2.historical.getD i 0
          = ({ len := 1, alpha := 1/2, historical := [0] } : MtiInst).historical.getD i 0
              + ({ len := 1, alpha := 1/2, historical := [0] } : MtiInst).alpha
                  * (([1] : List ℚ).getD i 0
                      - ({ len := 1, alpha := 1/2, historical := [0] } : MtiInst).historical.getD i 0)) ∧
    (∀ (α c : ℚ) (n k : ℕ), 1 ≤ k →
      mtiIterOut α n c k = List.replicate n (c * (1 - α) ^ (k - 1))) ∧
    (∀ (α c : ℚ) (n : ℕ), 0 < α → α ≤ 1 →
      Filter.Tendsto (fun k : ℕ => (((mtiIterOut α n c (k + 1)).getD 0 0 : ℚ) : ℝ))
        Filter.atTop (nhds 0)) :=
  mti_apply_formula_and_convergence { len := 1, alpha := 1/2, historical := [0] } [1]
    (by norm_num) (by norm_num) (by norm_num) (by norm_num)

lemma runCache_alt_all_rebuild (initOk : ℕ → Bool) (k : ℕ) :
    ∀ a b c, a ≠ b → initOk a = true → initOk b = true → c ≠ a →
      ∀ p ∈ runCache initOk c (altList a b k), p.1 = true := by
  induction k with
  | zero => intro a b c _ _ _ _ p hp; simp [altList, runCache] at hp
  | succ k ih =>
    intro a b c hab ha hb hca p hp
    rw [altList, runCache] at hp
    have hstep : fftCacheStep initOk c a = (a, true, true) := by
      simp [fftCacheStep, if_neg hca, ha]
    rw [hstep] at hp
    rcases List.mem_cons.mp hp with h | h
    · rw [h]
    · exact ih b a a (Ne.symm hab) hb ha hab p h

/-- Claim C4: the single-slot plan cache.  First conjunct: a call whose
length equals the cached plan's length reuses the plan with no rebuild.
Second conjunct: a differing length always triggers a rebuild, and when
the backend accepts the length the cached plan is evicted and replaced.
Third conjunct: alternating calls between two differing (backend-valid,
nonzero) lengths from the zero-initialized cache rebuild the plan on
every call. -/
theorem fft_plan_cache_single_slot (initOk : ℕ → Bool) :
    (∀ c, fftCacheStep initOk c c = (c, false, true)) ∧
    (∀ c n, c ≠ n → (fftCacheStep initOk c n).2.1 = true ∧
      (initOk n = true → fftCacheStep initOk c n = (n, true, true))) ∧
    (∀ a b k, a ≠ b → a ≠ 0 → b ≠ 0 → initOk a = true → initOk b = true →
      ∀ p ∈ runCache initOk 0 (altList a b k), p.1 = true) := by
  refine ⟨?_, ?_, ?_⟩
  · intro c
    simp [fftCacheStep]
  · intro c n hcn
    constructor
    · by_cases h : initOk n = true <;> simp [fftCacheStep, if_neg hcn, h]
    · intro h
      simp [fftCacheStep, if_neg hcn, h]
  · intro a b k hab ha0 _ ha hb
    exact runCache_alt_all_rebuild initOk k a b 0 hab ha hb (Ne.symm ha0)

/-- Witness for claim C4's theorem: a backend accepting every length, the
cached length 32 reused, 32 -> 64 rebuilt and replaced, and four
alternating calls of lengths 32/64 from the fresh cache all rebuilding. -/
theorem fft_plan_cache_single_slot_witness :
    fftCacheStep (fun _ => true) 32 32 = (32, false, true) ∧
    (fftCacheStep (fun _ => true) 32 64).2.1 = true ∧
    fftCacheStep (fun _ => true) 32 64 = (64, true, true) ∧
    ∀ p ∈ runCache (fun _ => true) 0 (altList 32 64 4), p.1 = true :=
  ⟨(fft_plan_cache_single_slot (fun _ => true)).1 32,
   ((fft_plan_cache_single_slot (fun _ => true)).2.1 32 64 (by decide)).1,
   ((fft_plan_cache_single_slot (fun _ => true)).2.1 32 64 (by decide)).2 rfl,
   (fft_plan_cache_single_slot (fun _ => true)).2.2 32 64 4 (by decide)
     (by decide) (by decide) rfl rfl⟩

lemma setDcImagZero_length (l : List (ℚ × ℚ)) :
    (setDcImagZero l).length = l.length := by
  cases l with
  | nil => rfl
  | cons p rest => cases p; rfl

lemma setDcImagZero_head (l : List (ℚ × ℚ)) (p : ℚ × ℚ)
    (h : (setDcImagZero l).head? = some p) : p.2 = 0 := by
  cases l with
  | nil => simp [setDcImagZero] at h
  | cons q rest =>
    cases q
    simp only [setDcImagZero, List.head?_cons, Option.some_inj] at h
    rw [← h]

lemma rangeChirpStep_length (rfftRun : List ℚ → List (ℚ × ℚ))
    (meanRemoval : Bool) (win : Option (List ℚ)) (chirp : List ℚ) (n : ℕ)
    (hchirp : chirp.length = n) (hwin : ∀ w, win = some w → w.length = n)
    (hbackend : ∀ l, (rfftRun l).length = l.length / 2) :
    (rangeChirpStep rfftRun meanRemoval win chirp).length = n / 2 := by
  have hc1 : (if meanRemoval then ifx_mean_removal_f32 chirp else chirp).length
      = n := by
    by_cases hm : meanRemoval <;> simp [hm, ifx_mean_removal_f32, hchirp]
  unfold rangeChirpStep
  cases hw : win with
  | none => simp only [setDcImagZero_length, hbackend, hc1]
  | some w =>
    simp only [setDcImagZero_length, hbackend, List.length_zipWith, hc1,
      hwin w hw, Nat.min_self]

lemma flatten_chunk (m : ℕ) :
    ∀ (L : List (List (ℚ × ℚ))) (k : ℕ), (∀ r ∈ L, r.length = m) →
      k < L.length → (L.flatten.drop (k * m)).take m = L.getD k [] := by
  intro L
  induction L with
  | nil => intro k _ hk; simp at hk
  | cons r rest ih =>
    intro k hlen hk
    cases k with
    | zero =>
      have hr : r.length = m := hlen r (List.mem_cons_self r rest)
      simp only [Nat.zero_mul, List.drop_zero, List.flatten_cons, List.getD_cons_zero]
      rw [← hr, List.take_left]
    | succ k =>
      have hr : r.length = m := hlen r (List.mem_cons_self r rest)
      have hmul : (k + 1) * m = r.length + k * m := by rw [hr]; ring
      rw [List.flatten_cons, hmul, ← List.drop_drop, List.drop_left,
        List.getD_cons_succ]
      exact ih k (fun s hs => hlen s (List.mem_cons_of_mem r hs))
        (Nat.lt_of_succ_lt_succ hk)

/-- Claim C6: when ifx_range_fft_f32 succeeds on a frame of chirps of
numSamplesPerChirp samples each, the output has one row per chirp, every
row holds exactly numSamplesPerChirp/2 complex bins, row k starts at flat
offset k * (numSamplesPerChirp/2), and every row's DC bin has imaginary
part zero no matter what the backend FFT wrote there. -/
theorem range_fft_output_shape_and_dc
    (rfftRun : List ℚ → List (ℚ × ℚ)) (initOk : ℕ → Bool) (cache : ℕ)
    (frame : List (List ℚ)) (meanRemoval : Bool) (win : Option (List ℚ))
    (n : ℕ) (rows : List (List (ℚ × ℚ)))
    (hchirp : ∀ chirp ∈ frame, chirp.length = n)
    (hwin : ∀ w, win = some w → w.length = n)
    (hbackend : ∀ l, (rfftRun l).length = l.length / 2)
    (hsucc : (ifx_range_fft_f32 rfftRun initOk cache frame meanRemoval win n).2
      = some rows) :
    rows.length = frame.length ∧
    (∀ r ∈ rows, r.length = n / 2) ∧
    (∀ r ∈ rows, ∀ p, r.head? = some p → p.2 = 0) ∧
    (∀ k, k < frame.length →
      (rows.flatten.drop (k * (n / 2))).take (n / 2) = rows.getD k []) := by
  have hrows : rows = frame.map (rangeChirpStep rfftRun meanRemoval win) := by
    unfold ifx_range_fft_f32 at hsucc
    by_cases hs : (fftCacheStep initOk cache n).2.2
    · simp only [hs, if_true] at hsucc
      exact (Option.some_inj.mp hsucc).symm
    · simp [hs] at hsucc
  have hrowlen : ∀ r ∈ rows, r.length = n / 2 := by
    intro r hr
    rw [hrows] at hr
    obtain ⟨chirp, hc, hmap⟩ := List.mem_map.mp hr
    rw [← hmap]
    exact rangeChirpStep_length rfftRun meanRemoval win chirp n
      (hchirp chirp hc) hwin hbackend
  refine ⟨by rw [hrows, List.length_map], hrowlen, ?_, ?_⟩
  · intro r hr p hp
    rw [hrows] at hr
    obtain ⟨chirp, _, hmap⟩ := List.mem_map.mp hr
    rw [← hmap] at hp
    exact setDcImagZero_head _ p hp
  · intro k hk
    have hk' : k < rows.length := by rw [hrows, List.length_map]; exact hk
    exact flatten_chunk (n / 2) rows k hrowlen hk'

/-- Witness for claim C6's theorem: a backend stub writing the nonzero
imaginary part 7 into every bin, two chirps of four samples, mean removal
and a window enabled; the DC bins come out with imaginary part 0. -/
theorem range_fft_output_shape_and_dc_witness :
    ([[((5 : ℚ), (0 : ℚ)), (5, 7)], [(5, 0), (5, 7)]] : List (List (ℚ × ℚ))).length
        = ([[1, 2, 3, 4], [4, 3, 2, 1]] : List (List ℚ)).length ∧
    (∀ r ∈ ([[((5 : ℚ), (0 : ℚ)), (5, 7)], [(5, 0), (5, 7)]] : List (List (ℚ × ℚ))),
      r.length = 4 / 2) ∧
    (∀ r ∈ ([[((5 : ℚ), (0 : ℚ)), (5, 7)], [(5, 0), (5, 7)]] : List (List (ℚ × ℚ))),
      ∀ p, r.head? = some p → p.2 = 0) ∧
    (∀ k, k < ([[1, 2, 3, 4], [4, 3, 2, 1]] : List (List ℚ)).length →
      ((([[((5 : ℚ), (0 : ℚ)), (5, 7)], [(5, 0), (5, 7)]] :
          List (List (ℚ × ℚ))).flatten.drop (k * (4 / 2))).take (4 / 2))
        = ([[((5 : ℚ), (0 : ℚ)), (5, 7)], [(5, 0), (5, 7)]] :
            List (List (ℚ × ℚ))).getD k []) :=
  range_fft_output_shape_and_dc
    (fun l => List.replicate (l.length / 2) ((5 : ℚ), (7 : ℚ))) (fun _ => true) 0
    [[1, 2, 3, 4], [4, 3, 2, 1]] true (some [1, 1, 1, 1]) 4
    [[(5, 0), (5, 7)], [(5, 0), (5, 7)]]
    (by intro chirp hc; simp only [List.mem_cons, List.not_mem_nil, or_false] at hc
        rcases hc with rfl | rfl <;> rfl)
    (by intro w hw; injection hw with h; subst h; rfl)
    (by intro l; simp)
    (by norm_num [ifx_range_fft_f32, fftCacheStep, rangeChirpStep,
      ifx_mean_removal_f32, setDcImagZero, List.replicate])

/-- Claim C7: ifx_angle_dbf_f32 validates the three dimension equalities
before computing; any violation is rejected (the backend multiply never
runs and no truncated product is produced), and when the shapes agree the
result is exactly the delegated product steering x input. -/
theorem angle_dbf_validates_shapes (mult : CMatrix → CMatrix → CMatrix)
    (pInput pSteering pOutput : CMatrix) :
    (¬(pSteering.numCols = pInput.numRows ∧ pInput.numCols = pOutput.numCols ∧
        pSteering.numRows = pOutput.numRows) →
      ifx_angle_dbf_f32 mult pInput pSteering pOutput = none) ∧
    (pSteering.numCols = pInput.numRows → pInput.numCols = pOutput.numCols →
      pSteering.numRows = pOutput.numRows →
      ifx_angle_dbf_f32 mult pInput pSteering pOutput
        = some (mult pSteering pInput)) := by
  constructor
  · intro h
    simp [ifx_angle_dbf_f32, if_neg h]
  · intro h1 h2 h3
    simp [ifx_angle_dbf_f32, h1, h2, h3]

/-- Witness for claim C7's theorem: a 3-angle/2-antenna steering matrix
against a 2-antenna/4-sample input is computed; the same steering matrix
against a 3-row input (an inconsistent antenna count) is rejected. -/
theorem angle_dbf_validates_shapes_witness :
    ifx_angle_dbf_f32 (fun a b => { numRows := a.numRows, numCols := b.numCols, pData := [] })
      { numRows := 3, numCols := 4, pData := [] }
      { numRows := 3, numCols := 2, pData := [] }
      { numRows := 3, numCols := 4, pData := [] } = none ∧
    ifx_angle_dbf_f32 (fun a b => { numRows := a.numRows, numCols := b.numCols, pData := [] })
      { numRows := 2, numCols := 4, pData := [] }
      { numRows := 3, numCols := 2, pData := [] }
      { numRows := 3, numCols := 4, pData := [] }
      = some { numRows := 3, numCols := 4, pData := [] } :=
  ⟨(angle_dbf_validates_shapes _ _ _ _).1 (by decide),
   (angle_dbf_validates_shapes _ _ _ _).2 rfl rfl rfl⟩

lemma monopulseLoop_equal_pairs (atan2 : ℚ → ℚ → Bool × ℚ)
    (sqrt : ℚ → Bool × ℚ) (ratio : ℚ)
    (hatanTotal : ∀ y x, (atan2 y x).1 = true)
    (hsqrt1 : sqrt 1 = (true, 1)) (hatan01 : atan2 0 1 = (true, 0)) :
    ∀ (l : List (ℚ × ℚ)) (a : ℚ) (ok : Bool) (acc : List (Option ℚ)),
      monopulseLoop atan2 sqrt ratio (l.zip l) a a ok acc
        = (acc.reverse ++ List.replicate l.length (some 0), ok) := by
  intro l
  induction l with
  | nil => intro a ok acc; simp [monopulseLoop]
  | cons z rest ih =>
    intro a ok acc
    rw [List.zip_cons_cons, monopulseLoop]
    have hr1 : (atan2 z.2 z.1).1 = true := hatanTotal z.2 z.1
    have hneg1 : ¬((0 : ℚ) ≤ -cmsisPI) := by norm_num [cmsisPI]
    have hneg2 : ¬(cmsisPI < (0 : ℚ)) := by norm_num [cmsisPI]
    have harcsin : ifx_arcsin_f32 sqrt atan2 ((0 : ℚ) * ratio)
        = (true, some 0) := by
      rw [zero_mul]
      have h1 : ¬((1 : ℚ) ≤ 0) := by norm_num
      have h2 : ¬((0 : ℚ) ≤ -1) := by norm_num
      simp only [ifx_arcsin_f32, if_neg h1, if_neg h2]
      norm_num [hsqrt1, hatan01]
    simp only [hr1, eq_self_iff_true, if_true, sub_self, if_neg hneg1,
      if_neg hneg2, harcsin, Bool.and_true]
    rw [ih]
    simp [List.replicate_succ]

/-- Claim C9: with the two receive channels pointwise equal, every angle
entry is written as 0 and the call reports success, for any backend
atan2/sqrt satisfying the spec's scalar-backend contract (atan2 always
succeeds, atan2(0, 1) = 0, sqrt(1) = 1) and any positive size,
wavelength and antenna spacing. -/
theorem monopulse_equal_inputs_zero (atan2 : ℚ → ℚ → Bool × ℚ)
    (sqrt : ℚ → Bool × ℚ) (rx : List (ℚ × ℚ))
    (wavelength antennaSpacing : ℚ)
    (hsize : 0 < rx.length) (hw : 0 < wavelength) (hs : 0 < antennaSpacing)
    (hatanTotal : ∀ y x, (atan2 y x).1 = true)
    (hsqrt1 : sqrt 1 = (true, 1)) (hatan01 : atan2 0 1 = (true, 0)) :
    ifx_angle_monopulse_f32 atan2 sqrt rx rx wavelength antennaSpacing
      = (List.replicate rx.length (some 0), true) := by
  unfold ifx_angle_monopulse_f32
  rw [monopulseLoop_equal_pairs atan2 sqrt _ hatanTotal hsqrt1 hatan01 rx 0 true []]
  simp

/-- Witness for claim C9's theorem: a one-sample channel pair with a
concrete backend satisfying the contract. -/
theorem monopulse_equal_inputs_zero_witness :
    ifx_angle_monopulse_f32 (fun _ _ => (true, 0)) (fun _ => (true, 1))
      [(1, 2)] [(1, 2)] 2 1 = (List.replicate 1 (some 0), true) :=
  monopulse_equal_inputs_zero (fun _ _ => (true, 0)) (fun _ => (true, 1))
    [(1, 2)] 2 1 (by decide) (by norm_num) (by norm_num)
    (fun _ _ => rfl) rfl rfl

lemma rotate1_eq_rotate (l : List ℚ) : rotate1 l = l.rotate 1 := by
  cases l with
  | nil => rfl
  | cons x xs => simp [rotate1, List.rotate_cons_succ]

lemma ifx_rotate_f32_eq_rotate (v : List ℚ) (k : ℕ) :
    ifx_rotate_f32 v k = v.rotate k := by
  unfold ifx_rotate_f32
  induction k generalizing v with
  | zero => simp
  | succ k ih =>
    rw [Function.iterate_succ_apply, ih (rotate1 v), rotate1_eq_rotate,
      List.rotate_rotate]
    rw [Nat.add_comm]

lemma toFlat_append (l₁ l₂ : List (ℚ × ℚ)) :
    toFlat (l₁ ++ l₂) = toFlat l₁ ++ toFlat l₂ := by
  induction l₁ with
  | nil => rfl
  | cons p rest ih => cases p; simp [toFlat, ih]

lemma toFlat_length (l : List (ℚ × ℚ)) : (toFlat l).length = 2 * l.length := by
  induction l with
  | nil => rfl
  | cons p rest ih => cases p; simp [toFlat, ih]; ring

lemma toFlat_take (l : List (ℚ × ℚ)) (n : ℕ) :
    toFlat (l.take n) = (toFlat l).take (2 * n) := by
  induction l generalizing n with
  | nil => simp [toFlat]
  | cons p rest ih =>
    cases p
    cases n with
    | zero => rfl
    | succ n =>
      simp only [List.take_succ_cons, toFlat]
      rw [show 2 * (n + 1) = 2 * n + 1 + 1 by ring]
      simp [List.take_succ_cons, ih]

lemma toFlat_drop (l : List (ℚ × ℚ)) (n : ℕ) :
    toFlat (l.drop n) = (toFlat l).drop (2 * n) := by
  induction l generalizing n with
  | nil => simp [toFlat]
  | cons p rest ih =>
    cases p
    cases n with
    | zero => rfl
    | succ n =>
      simp only [List.drop_succ_cons, toFlat]
      rw [show 2 * (n + 1) = 2 * n + 1 + 1 by ring]
      simp [List.drop_succ_cons, ih]

lemma unflat_toFlat (l : List (ℚ × ℚ)) : unflat (toFlat l) = l := by
  induction l with
  | nil => rfl
  | cons p rest ih => cases p; simp [toFlat, unflat, ih]

lemma toFlat_rotate (l : List (ℚ × ℚ)) (m : ℕ) :
    (toFlat l).rotate (2 * m) = toFlat (l.rotate m) := by
  rcases eq_or_ne l [] with rfl | hl
  · simp [toFlat]
  · have hpos : 0 < l.length := List.length_pos.mpr hl
    rw [← List.rotate_mod (toFlat l), ← List.rotate_mod l, toFlat_length,
      Nat.mul_mod_mul_left]
    have hj : m % l.length ≤ l.length := le_of_lt (Nat.mod_lt m hpos)
    have hjf : 2 * (m % l.length) ≤ (toFlat l).length := by
      rw [toFlat_length]
      omega
    rw [List.rotate_eq_drop_append_take hjf, List.rotate_eq_drop_append_take hj,
      toFlat_append, toFlat_drop, toFlat_take]

lemma shift_row (r : List (ℚ × ℚ)) (len : ℕ) (hr : r.length = len) :
    unflat (ifx_rotate_f32 (toFlat r) (if len % 2 = 1 then len + 1 else len))
      = r.rotate (if len % 2 = 1 then (len + 1) / 2 else len / 2) := by
  by_cases h : len % 2 = 1
  · have h2 : len + 1 = 2 * ((len + 1) / 2) := by omega
    rw [if_pos h, if_pos h, ifx_rotate_f32_eq_rotate]
    rw [show (toFlat r).rotate (len + 1)
        = (toFlat r).rotate (2 * ((len + 1) / 2)) by rw [← h2]]
    rw [toFlat_rotate, unflat_toFlat]
  · have h2 : len = 2 * (len / 2) := by omega
    rw [if_neg h, if_neg h, ifx_rotate_f32_eq_rotate]
    rw [show (toFlat r).rotate len = (toFlat r).rotate (2 * (len / 2)) by
      rw [← h2]]
    rw [toFlat_rotate, unflat_toFlat]

/-- Claim C10: on a buffer of dim consecutive rows of len complex
elements, ifx_shift_cfft_f32 rotates every row left by len/2 complex
positions when len is even and by (len+1)/2 complex positions when len
is odd, and each output row is a permutation of its input row (the
multiset of elements in every row is unchanged). -/
theorem shift_cfft_rotates_rows (rows : List (List (ℚ × ℚ))) (len : ℕ)
    (hlen : 0 < len) (hrow : ∀ r ∈ rows, r.length = len) :
    ifx_shift_cfft_f32 len rows.flatten rows.length
      = (rows.map (fun r =>
          r.rotate (if len % 2 = 1 then (len + 1) / 2 else len / 2))).flatten ∧
    ∀ r ∈ rows,
      List.Perm (r.rotate (if len % 2 = 1 then (len + 1) / 2 else len / 2)) r := by
  constructor
  · induction rows with
    | nil => rfl
    | cons r rest ih =>
      have hr : r.length = len := hrow r (List.mem_cons_self r rest)
      rw [List.flatten_cons, List.length_cons, ifx_shift_cfft_f32]
      rw [← hr, List.take_left, List.drop_left, hr]
      rw [shift_row r len hr, List.map_cons, List.flatten_cons]
      rw [ih (fun s hs => hrow s (List.mem_cons_of_mem r hs))]
  · intro r _
    exact List.rotate_perm r _

/-- Witness for claim C10's theorem: one row of three complex elements
(odd length, so the row is rotated left by two complex positions). -/
theorem shift_cfft_rotates_rows_witness :
    ifx_shift_cfft_f32 3 ([[(1, 2), (3, 4), (5, 6)]] :
        List (List (ℚ × ℚ))).flatten ([[(1, 2), (3, 4), (5, 6)]] :
        List (List (ℚ × ℚ))).length
      = (([[(1, 2), (3, 4), (5, 6)]] : List (List (ℚ × ℚ))).map (fun r =>
          r.rotate (if 3 % 2 = 1 then (3 + 1) / 2 else 3 / 2))).flatten ∧
    ∀ r ∈ ([[(1, 2), (3, 4), (5, 6)]] : List (List (ℚ × ℚ))),
      List.Perm (r.rotate (if 3 % 2 = 1 then (3 + 1) / 2 else 3 / 2)) r :=
  shift_cfft_rotates_rows [[(1, 2), (3, 4), (5, 6)]] 3 (by decide)
    (by intro r hr
        simp only [List.mem_cons, List.not_mem_nil, or_false] at hr
        rw [hr]
        rfl)

lemma cos_two_pi_nat_sub (k : ℕ) (x : ℝ) :
    Real.cos (2 * Real.pi * (k : ℝ) - x) = Real.cos x := by
  rw [Real.cos_sub]
  have hc : Real.cos (2 * Real.pi * (k : ℝ)) = 1 := by
    rw [show 2 * Real.pi * (k : ℝ) = (k : ℝ) * (2 * Real.pi) by ring]
    exact Real.cos_nat_mul_two_pi k
  have hs : Real.sin (2 * Real.pi * (k : ℝ)) = 0 := by
    rw [show 2 * Real.pi * (k : ℝ) = ((2 * k : ℕ) : ℝ) * Real.pi by
      push_cast; ring]
    exact Real.sin_nat_mul_pi (2 * k)
  rw [hc, hs]
  ring

lemma window_arg_symm (len i : ℕ) (h1 : 1 < len) (hi : i < len) :
    ((len - 1 - i : ℕ) : ℝ) * (1 / ((len : ℝ) - 1))
      = 1 - (i : ℝ) * (1 / ((len : ℝ) - 1)) := by
  have hlen : ((len : ℝ) - 1) ≠ 0 := by
    have : (1 : ℝ) < (len : ℝ) := by exact_mod_cast h1
    linarith
  have hcast : ((len - 1 - i : ℕ) : ℝ) = (len : ℝ) - 1 - (i : ℝ) := by
    have h' : len - 1 - i + (i + 1) = len := by omega
    have hc := congrArg (fun t : ℕ => (t : ℝ)) h'
    push_cast at hc
    linarith
  rw [hcast]
  field_simp

lemma cos_arg_symm (k len i : ℕ) (h1 : 1 < len) (hi : i < len) :
    Real.cos ((2 * (k : ℝ)) * Real.pi * ((len - 1 - i : ℕ) : ℝ)
        * (1 / ((len : ℝ) - 1)))
      = Real.cos ((2 * (k : ℝ)) * Real.pi * (i : ℝ) * (1 / ((len : ℝ) - 1))) := by
  rw [show (2 * (k : ℝ)) * Real.pi * ((len - 1 - i : ℕ) : ℝ)
        * (1 / ((len : ℝ) - 1))
      = (2 * (k : ℝ)) * Real.pi
        * (((len - 1 - i : ℕ) : ℝ) * (1 / ((len : ℝ) - 1))) by ring]
  rw [window_arg_symm len i h1 hi]
  rw [show (2 * (k : ℝ)) * Real.pi * (1 - (i : ℝ) * (1 / ((len : ℝ) - 1)))
      = 2 * Real.pi * (k : ℝ)
        - (2 * (k : ℝ)) * Real.pi * (i : ℝ) * (1 / ((len : ℝ) - 1)) by ring]
  exact cos_two_pi_nat_sub k _

lemma cos_arg_symm2 (len i : ℕ) (h1 : 1 < len) (hi : i < len) :
    Real.cos (2 * Real.pi * ((len - 1 - i : ℕ) : ℝ) * (1 / ((len : ℝ) - 1)))
      = Real.cos (2 * Real.pi * (i : ℝ) * (1 / ((len : ℝ) - 1))) := by
  convert cos_arg_symm 1 len i h1 hi using 2 <;> push_cast <;> ring

lemma cos_arg_symm4 (len i : ℕ) (h1 : 1 < len) (hi : i < len) :
    Real.cos (4 * Real.pi * ((len - 1 - i : ℕ) : ℝ) * (1 / ((len : ℝ) - 1)))
      = Real.cos (4 * Real.pi * (i : ℝ) * (1 / ((len : ℝ) - 1))) := by
  convert cos_arg_symm 2 len i h1 hi using 2 <;> push_cast <;> ring

lemma cos_arg_symm6 (len i : ℕ) (h1 : 1 < len) (hi : i < len) :
    Real.cos (6 * Real.pi * ((len - 1 - i : ℕ) : ℝ) * (1 / ((len : ℝ) - 1)))
      = Real.cos (6 * Real.pi * (i : ℝ) * (1 / ((len : ℝ) - 1))) := by
  convert cos_arg_symm 3 len i h1 hi using 2 <;> push_cast <;> ring

/-- Claim C8: every generated window kind is symmetric:
window[i] = window[len - 1 - i] for every length greater than 1 and every
index i below the length. -/
theorem windows_symmetric (kind : WindowKind) (len i : ℕ)
    (h1 : 1 < len) (hi : i < len) :
    windowGen kind len i = windowGen kind len (len - 1 - i) := by
  cases kind with
  | hamming =>
    simp only [windowGen, ifx_window_hamming_f32]
    rw [cos_arg_symm2 len i h1 hi]
  | blackmanharris =>
    simp only [windowGen, ifx_window_blackmanharris_f32]
    rw [cos_arg_symm2 len i h1 hi, cos_arg_symm4 len i h1 hi,
      cos_arg_symm6 len i h1 hi]
  | hann =>
    simp only [windowGen, ifx_window_hann_f32]
    rw [cos_arg_symm2 len i h1 hi]
  | blackman =>
    simp only [windowGen, ifx_window_blackman_f32]
    rw [cos_arg_symm2 len i h1 hi, cos_arg_symm4 len i h1 hi]

/-- Witness for claim C8's theorem at length 4, index 1, for all four
window kinds. -/
theorem windows_symmetric_witness :
    windowGen WindowKind.hamming 4 1 = windowGen WindowKind.hamming 4 (4 - 1 - 1) ∧
    windowGen WindowKind.blackmanharris 4 1
      = windowGen WindowKind.blackmanharris 4 (4 - 1 - 1) ∧
    windowGen WindowKind.hann 4 1 = windowGen WindowKind.hann 4 (4 - 1 - 1) ∧
    windowGen WindowKind.blackman 4 1
      = windowGen WindowKind.blackman 4 (4 - 1 - 1) :=
  ⟨windows_symmetric WindowKind.hamming 4 1 (by decide) (by decide),
   windows_symmetric WindowKind.blackmanharris 4 1 (by decide) (by decide),
   windows_symmetric WindowKind.hann 4 1 (by decide) (by decide),
   windows_symmetric WindowKind.blackman 4 1 (by decide) (by decide)⟩

end SensorDsp

